import Mathlib

/-!
Shallow embedding of `src/bl_ttest_gui_app_1.0.py` (Welch t-test GUI tool).

The script's numeric core works on two samples obtained by dropping missing
values from two selected columns.  Sample values are embedded as exact
rationals; the transcendental parts the script takes from scipy (the Student t
cumulative distribution function and its quantile function) are abstracted as
an explicit `TDist` parameter, and `sqrt` maps into `ℝ`.  All branching done by
the script (the `diff > 0` tail adjustment, sizes, histogram binning) happens
on rational quantities and stays decidable.
-/

namespace BLTTest

/-- Arithmetic mean of a sample (`pandas`/`numpy` mean); junk value `0` on an
empty sample, where numpy would return NaN. -/
def mean (xs : List ℚ) : ℚ := xs.sum / (xs.length : ℚ)

/-- Unbiased sample variance `np.var(xs, ddof=1)`: sum of squared deviations
from the mean divided by `n - 1`.  For `n ≤ 1` the denominator is `≤ 0`; at
`n = 1` exact arithmetic yields the junk value `0` where numpy warns and
returns NaN. -/
def sVar (xs : List ℚ) : ℚ :=
  ((xs.map (fun x => (x - mean xs) ^ 2)).sum) / ((xs.length : ℚ) - 1)

/-- Square of the standard error of source line 48,
`se = np.sqrt(var(a)/len(a) + var(b)/len(b))`; the script materialises
`se` itself only under a square root, so the rational square is the primitive
quantity here. -/
def seSq (a b : List ℚ) : ℚ :=
  sVar a / (a.length : ℚ) + sVar b / (b.length : ℚ)

/-- Denominator of the Welch–Satterthwaite degrees of freedom
(source lines 50–51): `(var(a)/n_a)²/(n_a−1) + (var(b)/n_b)²/(n_b−1)`. -/
def dfDen (a b : List ℚ) : ℚ :=
  (sVar a / (a.length : ℚ)) ^ 2 / ((a.length : ℚ) - 1) +
    (sVar b / (b.length : ℚ)) ^ 2 / ((b.length : ℚ) - 1)

/-- Welch–Satterthwaite degrees of freedom `df_w = se**4 / dfDen`
(source lines 49–52); `se⁴ = (se²)²` exactly, since `se²` is nonnegative. -/
def dfOf (a b : List ℚ) : ℚ := (seSq a b) ^ 2 / dfDen a b

/-- Abstraction of the Student t distribution routines the script obtains from
scipy: `cdf d x` stands for the cumulative distribution function with `d`
degrees of freedom evaluated at `x` (scipy `stdtr`), and `ppf d q` for the
quantile function (scipy `stats.t.ppf(q, d)`, argument order swapped). -/
structure TDist where
  cdf : ℝ → ℝ → ℝ
  ppf : ℝ → ℝ → ℝ

/-- Welch t statistic of `stats.ttest_ind(a, b, equal_var=False)`:
`(mean a − mean b) / sqrt(var a/n_a + var b/n_b)`. -/
noncomputable def ttestT (a b : List ℚ) : ℝ :=
  ((mean a - mean b : ℚ) : ℝ) / Real.sqrt ((seSq a b : ℚ) : ℝ)

/-- Two-sided p-value of `stats.ttest_ind(a, b, equal_var=False)`:
`2 · F(−|t|)` under the Student t distribution with the Welch–Satterthwaite
degrees of freedom. -/
noncomputable def ttestP (td : TDist) (a b : List ℚ) : ℝ :=
  2 * td.cdf ((dfOf a b : ℚ) : ℝ) (-|ttestT a b|)

/-- Result record of one engine run (source lines 46–57): the quantities the
script computes and then renders/exports. -/
structure TestResult where
  t_stat : ℝ
  p_val : ℝ
  diff : ℚ
  se_sq : ℚ
  df_w : ℚ
  t_crit : ℝ
  ci_low : ℝ
  ci_high : ℝ
  one_sided : Bool

/-- The statistical core of the script, source lines 46–57, with `data1` and
`data2` the two samples after `dropna`, `one_sided = true` modelling the
"片側 (群2 > 群1)" radio choice, and `alpha` the significance slider value.
The scipy call receives `(data2, data1)` in that order, exactly as in line
46. -/
noncomputable def runEngine (td : TDist) (one_sided : Bool) (alpha : ℚ)
    (data1 data2 : List ℚ) : TestResult :=
  let t_stat := ttestT data2 data1
  let p0 := ttestP td data2 data1
  let diff := mean data2 - mean data1
  let se_sq := seSq data2 data1
  let df_w := dfOf data2 data1
  let t_crit := td.ppf ((df_w : ℚ) : ℝ) (((1 - alpha / 2 : ℚ) : ℝ))
  let se : ℝ := Real.sqrt ((se_sq : ℚ) : ℝ)
  let ci_low := ((diff : ℚ) : ℝ) - t_crit * se
  let ci_high := ((diff : ℚ) : ℝ) + t_crit * se
  let p_val := if one_sided then (if 0 < diff then p0 / 2 else 1 - p0 / 2) else p0
  ⟨t_stat, p_val, diff, se_sq, df_w, t_crit, ci_low, ci_high, one_sided⟩

/-- Error taxonomy of the specification's §7 for the engine; the source script
itself raises none of these. -/
inductive EngineError
  | insufficientData
  deriving DecidableEq

/-- Engine guarded the way the specification's §4.2 words it ("fails with
InsufficientDataError if either sample has fewer than 2 non-missing values");
stated here for comparison with `runEngine`, which is the unguarded behavior
actually present in the source. -/
noncomputable def runEngineChecked (td : TDist) (one_sided : Bool) (alpha : ℚ)
    (data1 data2 : List ℚ) : Except EngineError TestResult :=
  if data1.length < 2 ∨ data2.length < 2 then .error .insufficientData
  else .ok (runEngine td one_sided alpha data1 data2)

/-- Concrete degenerate instance of the abstract t-distribution routines, used
to instantiate universally quantified statements at a closed input. -/
noncomputable def td0 : TDist := ⟨fun _ _ => 0, fun _ _ => 0⟩

/-! ### Histogram builder (source lines 73, 85–87) -/

/-- Minimum of a sample, `a.min()`; junk value `0` on the empty list. -/
def listMin : List ℚ → ℚ
  | [] => 0
  | x :: xs => xs.foldl min x

/-- Maximum of a sample, `a.max()`; junk value `0` on the empty list. -/
def listMax : List ℚ → ℚ
  | [] => 0
  | x :: xs => xs.foldl max x

/-- Outer edges of the binning range, numpy `_get_outer_edges`: the combined
minimum and maximum, each widened by `1/2` when they coincide. -/
def outerEdges (c : List ℚ) : ℚ × ℚ :=
  if listMin c = listMax c then (listMin c - 1/2, listMax c + 1/2)
  else (listMin c, listMax c)

/-- The 21 equally spaced bin edges of `np.histogram_bin_edges(c, bins=20)`
(source line 73): `linspace` from the first outer edge to the second. -/
def binEdges (c : List ℚ) : List ℚ :=
  (List.range 21).map
    (fun (i : ℕ) => (outerEdges c).1 + (i : ℚ) * (((outerEdges c).2 - (outerEdges c).1) / 20))

/-- Membership of `x` in bin `i` of the given edges, numpy histogram
semantics: bins are half-open `[eᵢ, eᵢ₊₁)` except the last, which is closed. -/
def inBin (edges : List ℚ) (i : ℕ) (x : ℚ) : Bool :=
  if i = edges.length - 2 then decide (edges.getD i 0 ≤ x ∧ x ≤ edges.getD (i + 1) 0)
  else decide (edges.getD i 0 ≤ x ∧ x < edges.getD (i + 1) 0)

/-- Frequency counts of `np.histogram(xs, bins=edges)` (source lines 85–86). -/
def histCounts (edges : List ℚ) (xs : List ℚ) : List ℕ :=
  (List.range (edges.length - 1)).map (fun i => xs.countP (fun x => inBin edges i x))

/-- Python `int()` truncation toward zero. -/
def pyInt (q : ℚ) : ℤ := if 0 ≤ q then ⌊q⌋ else -⌊-q⌋

/-- Bin labels of source line 87: `f"{int(bins[i])}-{int(bins[i+1])}"` per
bin. -/
def binLabels (edges : List ℚ) : List String :=
  (List.range (edges.length - 1)).map
    (fun i => toString (pyInt (edges.getD i 0)) ++ "-" ++ toString (pyInt (edges.getD (i + 1) 0)))

/-! ### Spreadsheet export (source lines 89–110) -/

/-- A column-oriented table standing for the uploaded pandas DataFrame: named
columns whose cells are `none` where the value is missing (NaN). -/
abbrev DataTable := List (String × List (Option ℚ))

/-- Column selection `df[col]`: the cells of the first column carrying the
given name (empty if absent). -/
def getCol (df : DataTable) (c : String) : List (Option ℚ) :=
  ((df.find? (fun p => p.1 = c)).map Prod.snd).getD []

/-- pandas `dropna` on one column: the non-missing values, in original
order (source lines 43–44). -/
def dropna (xs : List (Option ℚ)) : List ℚ := xs.filterMap id

/-- Sheet 元データ, source line 92: `df[[col1, col2]].to_excel(..., index=False)`
writes the header row of the two selected names and then the two full columns,
missing cells left blank. -/
def rawDataSheet (df : DataTable) (c1 c2 : String) : List String × List (List (Option ℚ)) :=
  ([c1, c2], [getCol df c1, getCol df c2])

/-- Worksheet formatting state relevant to the export: the autofilter range
`(first_row, first_col, last_row, last_col)`, the frozen-panes split, and one
`(first_col, last_col, width)` triple per `set_column` call. -/
structure WorksheetFormat where
  autofilter : ℕ × ℕ × ℕ × ℕ
  freeze_split : ℕ × ℕ
  col_widths : List (ℕ × ℕ × ℕ)
  deriving DecidableEq

/-- Formatting applied to one worksheet inside `for ws in [ws_data, ws_hist]`
(source lines 106–110): `autofilter(0, 0, len(df_hist), 2)`,
`freeze_panes(1, 0)`, and `set_column(i, i, 15)` for each column index of
`df_hist`. -/
def wsFormat (dfHistRows dfHistCols : ℕ) : WorksheetFormat :=
  { autofilter := (0, 0, dfHistRows, 2),
    freeze_split := (1, 0),
    col_widths := (List.range dfHistCols).map (fun i => (i, i, 15)) }

/-- Formats of the raw-data worksheet and of the histogram worksheet: the
source applies the identical loop body to both, parameterised only by
`df_hist`. -/
def exportFormats (dfHistRows dfHistCols : ℕ) : WorksheetFormat × WorksheetFormat :=
  (wsFormat dfHistRows dfHistCols, wsFormat dfHistRows dfHistCols)

/-! ### Claim theorems -/

/-- C1: for every pair of samples and every significance level, when one-sided
mode is requested the reported p-value equals `p_two_sided/2` if
`diff = mean(sample2) − mean(sample1) > 0` and `1 − p_two_sided/2` otherwise
(including `diff = 0`); in the `diff ≤ 0` case the reported p-value is
`≥ 1/2`.  The hypothesis `hp` records the fact, inherited from scipy, that the
two-sided p-value never exceeds 1. -/
theorem C1_one_sided_p (td : TDist) (alpha : ℚ) (s1 s2 : List ℚ)
    (hp : (runEngine td false alpha s1 s2).p_val ≤ 1) :
    (0 < mean s2 - mean s1 →
      (runEngine td true alpha s1 s2).p_val = (runEngine td false alpha s1 s2).p_val / 2) ∧
    (¬ 0 < mean s2 - mean s1 →
      (runEngine td true alpha s1 s2).p_val = 1 - (runEngine td false alpha s1 s2).p_val / 2) ∧
    (¬ 0 < mean s2 - mean s1 → 1 / 2 ≤ (runEngine td true alpha s1 s2).p_val) := by
  by_cases hd : 0 < mean s2 - mean s1
  · refine ⟨fun _ => ?_, fun h => absurd hd h, fun h => absurd hd h⟩
    simp [runEngine, hd]
  · have hone : (runEngine td true alpha s1 s2).p_val
        = 1 - (runEngine td false alpha s1 s2).p_val / 2 := by
      simp [runEngine, hd]
    exact ⟨fun h => absurd h hd, fun _ => hone, fun _ => by rw [hone]; linarith⟩

/-- C1 witness: at `sample1 = [1,2]`, `sample2 = [0,1]` (so `diff = −1 ≤ 0`)
and the degenerate t-distribution instance, the one-sided p-value is at least
`1/2`. -/
theorem C1_witness : 1 / 2 ≤ (runEngine td0 true (1/20) [(1:ℚ), 2] [0, 1]).p_val := by
  have hp : (runEngine td0 false (1/20) [(1:ℚ), 2] [0, 1]).p_val ≤ 1 := by
    show ttestP td0 [(0:ℚ), 1] [(1:ℚ), 2] ≤ 1
    norm_num [ttestP, td0]
  exact (C1_one_sided_p td0 (1/20) [(1:ℚ), 2] [0, 1] hp).2.2 (by norm_num [mean])

/-- C2: for samples of size at least 2 and any α, the engine's t-critical
value is the `1 − α/2` quantile of the Student t distribution with the
Welch–Satterthwaite degrees of freedom, it is the same in both tail modes, and
the confidence interval is exactly `(diff − t_crit·se, diff + t_crit·se)`. -/
theorem C2_ci (td : TDist) (one_sided : Bool) (alpha : ℚ) (s1 s2 : List ℚ)
    (h1 : 2 ≤ s1.length) (h2 : 2 ≤ s2.length) :
    (runEngine td one_sided alpha s1 s2).df_w = dfOf s2 s1 ∧
    (runEngine td one_sided alpha s1 s2).t_crit
      = td.ppf ((dfOf s2 s1 : ℚ) : ℝ) (((1 - alpha / 2 : ℚ) : ℝ)) ∧
    (runEngine td true alpha s1 s2).t_crit = (runEngine td false alpha s1 s2).t_crit ∧
    (runEngine td one_sided alpha s1 s2).ci_low
      = (((runEngine td one_sided alpha s1 s2).diff : ℚ) : ℝ)
        - (runEngine td one_sided alpha s1 s2).t_crit
          * Real.sqrt (((runEngine td one_sided alpha s1 s2).se_sq : ℚ) : ℝ) ∧
    (runEngine td one_sided alpha s1 s2).ci_high
      = (((runEngine td one_sided alpha s1 s2).diff : ℚ) : ℝ)
        + (runEngine td one_sided alpha s1 s2).t_crit
          * Real.sqrt (((runEngine td one_sided alpha s1 s2).se_sq : ℚ) : ℝ) :=
  ⟨rfl, rfl, rfl, rfl, rfl⟩

/-- C2 witness: the t-critical/confidence-interval characterisation applied at
two concrete two-element samples. -/
theorem C2_witness :
    (runEngine td0 false (1/20) [(1:ℚ), 2] [3, 4]).t_crit
      = td0.ppf ((dfOf [(3:ℚ), 4] [(1:ℚ), 2] : ℚ) : ℝ) (((1 - (1/20 : ℚ) / 2 : ℚ) : ℝ)) :=
  (C2_ci td0 false (1/20) [(1:ℚ), 2] [3, 4] (by decide) (by decide)).2.1

/-- C3: for every pair of samples and every α, the two-sided run and the
one-sided run agree on the t-statistic, the degrees of freedom, the mean
difference and the confidence interval; only the reported p-value (and the
tail marker itself) can differ. -/
theorem C3_mode_invariance (td : TDist) (alpha : ℚ) (s1 s2 : List ℚ) :
    (runEngine td true alpha s1 s2).t_stat = (runEngine td false alpha s1 s2).t_stat ∧
    (runEngine td true alpha s1 s2).df_w = (runEngine td false alpha s1 s2).df_w ∧
    (runEngine td true alpha s1 s2).diff = (runEngine td false alpha s1 s2).diff ∧
    (runEngine td true alpha s1 s2).ci_low = (runEngine td false alpha s1 s2).ci_low ∧
    (runEngine td true alpha s1 s2).ci_high = (runEngine td false alpha s1 s2).ci_high :=
  ⟨rfl, rfl, rfl, rfl, rfl⟩

/-- Squared standard error is symmetric in the two samples. -/
theorem seSq_comm (a b : List ℚ) : seSq a b = seSq b a := add_comm _ _

/-- The Welch–Satterthwaite degrees of freedom are symmetric in the two
samples. -/
theorem dfOf_comm (a b : List ℚ) : dfOf a b = dfOf b a := by
  unfold dfOf dfDen
  rw [seSq_comm, add_comm]

/-- Swapping the samples negates the Welch t statistic. -/
theorem ttestT_swap (a b : List ℚ) : ttestT b a = -ttestT a b := by
  unfold ttestT
  rw [seSq_comm b a, ← neg_div]
  push_cast
  ring_nf

/-- Swapping the samples leaves the two-sided p-value unchanged. -/
theorem ttestP_swap (td : TDist) (a b : List ℚ) : ttestP td b a = ttestP td a b := by
  unfold ttestP
  rw [dfOf_comm b a, ttestT_swap, abs_neg]

/-- C4: exchanging which sample plays `sample1` and which plays `sample2`
negates the mean difference, negates the t-statistic, leaves the two-sided
p-value unchanged, and maps the confidence interval `(low, high)` to
`(−high, −low)`. -/
theorem C4_swap (td : TDist) (alpha : ℚ) (s1 s2 : List ℚ) :
    (runEngine td false alpha s2 s1).diff = -(runEngine td false alpha s1 s2).diff ∧
    (runEngine td false alpha s2 s1).t_stat = -(runEngine td false alpha s1 s2).t_stat ∧
    (runEngine td false alpha s2 s1).p_val = (runEngine td false alpha s1 s2).p_val ∧
    (runEngine td false alpha s2 s1).ci_low = -(runEngine td false alpha s1 s2).ci_high ∧
    (runEngine td false alpha s2 s1).ci_high = -(runEngine td false alpha s1 s2).ci_low := by
  refine ⟨by simp [runEngine], ?_, ?_, ?_, ?_⟩
  · show ttestT s1 s2 = -ttestT s2 s1
    exact ttestT_swap s2 s1
  · show ttestP td s1 s2 = ttestP td s2 s1
    exact ttestP_swap td s2 s1
  · show ((mean s1 - mean s2 : ℚ) : ℝ)
        - td.ppf ((dfOf s1 s2 : ℚ) : ℝ) (((1 - alpha / 2 : ℚ) : ℝ))
          * Real.sqrt ((seSq s1 s2 : ℚ) : ℝ)
      = -(((mean s2 - mean s1 : ℚ) : ℝ)
        + td.ppf ((dfOf s2 s1 : ℚ) : ℝ) (((1 - alpha / 2 : ℚ) : ℝ))
          * Real.sqrt ((seSq s2 s1 : ℚ) : ℝ))
    rw [dfOf_comm s1 s2, seSq_comm s1 s2]
    push_cast
    ring
  · show ((mean s1 - mean s2 : ℚ) : ℝ)
        + td.ppf ((dfOf s1 s2 : ℚ) : ℝ) (((1 - alpha / 2 : ℚ) : ℝ))
          * Real.sqrt ((seSq s1 s2 : ℚ) : ℝ)
      = -(((mean s2 - mean s1 : ℚ) : ℝ)
        - td.ppf ((dfOf s2 s1 : ℚ) : ℝ) (((1 - alpha / 2 : ℚ) : ℝ))
          * Real.sqrt ((seSq s2 s1 : ℚ) : ℝ))
    rw [dfOf_comm s1 s2, seSq_comm s1 s2]
    push_cast
    ring

/-- C8: the raw-data export sheet consists of the header row with the two
selected column names and the two selected columns unmodified; in particular
its non-missing values are the original non-missing values of the selected
columns, in original order. -/
theorem C8_raw_export (df : DataTable) (c1 c2 : String) :
    (rawDataSheet df c1 c2).1 = [c1, c2] ∧
    (rawDataSheet df c1 c2).2 = [getCol df c1, getCol df c2] ∧
    dropna ((rawDataSheet df c1 c2).2.getD 0 []) = dropna (getCol df c1) ∧
    dropna ((rawDataSheet df c1 c2).2.getD 1 []) = dropna (getCol df c2) :=
  ⟨rfl, rfl, rfl, rfl⟩

/-- C7 counterexample: at a selected column with a single value the engine does
not fail: the run is an ordinary (non-error) result and the computation
proceeds (`diff = mean [1,2] − mean [5] = −7/2`), whereas the specification's
guarded engine would report `InsufficientDataError` there. -/
theorem C7_counterexample :
    Except.ok (runEngine td0 false (1/20) [(5:ℚ)] [1, 2])
      ≠ Except.error EngineError.insufficientData ∧
    (runEngine td0 false (1/20) [(5:ℚ)] [1, 2]).diff = -7/2 ∧
    runEngineChecked td0 false (1/20) [(5:ℚ)] [1, 2]
      = Except.error EngineError.insufficientData := by
  refine ⟨by simp, ?_, by simp [runEngineChecked]⟩
  show mean [(1:ℚ), 2] - mean [(5:ℚ)] = -7/2
  norm_num [mean]

/-- C7 as amended: the source performs no sample-size validation — with fewer
than 2 values in either sample the engine still proceeds with the computation
(its fields are the unconditional formulas); only the spec-worded guarded
variant reports `InsufficientDataError`. -/
theorem C7_amended (td : TDist) (one_sided : Bool) (alpha : ℚ) (s1 s2 : List ℚ)
    (h : s1.length < 2 ∨ s2.length < 2) :
    runEngineChecked td one_sided alpha s1 s2 = Except.error EngineError.insufficientData ∧
    (runEngine td one_sided alpha s1 s2).diff = mean s2 - mean s1 ∧
    (runEngine td one_sided alpha s1 s2).df_w = dfOf s2 s1 :=
  ⟨by simp [runEngineChecked, h], rfl, rfl⟩

/-- C7 witness: the amended statement applied at the one-value column `[5]`
against `[1,2]`. -/
theorem C7_witness :
    runEngineChecked td0 false (1/20) [(5:ℚ)] [1, 2]
      = Except.error EngineError.insufficientData :=
  (C7_amended td0 false (1/20) [(5:ℚ)] [1, 2] (Or.inl (by decide))).1

/-- Mean of a constant sample is that constant. -/
theorem mean_replicate (n : ℕ) (c : ℚ) (hn : n ≠ 0) : mean (List.replicate n c) = c := by
  rw [mean, List.sum_replicate, List.length_replicate, nsmul_eq_mul,
    mul_div_cancel_left₀]
  exact_mod_cast hn

/-- Sample variance of a constant sample is `0`. -/
theorem sVar_replicate (n : ℕ) (c : ℚ) (hn : n ≠ 0) : sVar (List.replicate n c) = 0 := by
  rw [sVar, mean_replicate n c hn, List.map_replicate]
  simp

/-- C9: for identical constant samples (with at least 2 values) the run
completes as an ordinary, non-error result: the sample variance and the
squared standard error are `0` (so the t denominator `se = √0 = 0` vanishes),
the divisor of the Welch degrees of freedom is `0` (so `df` and `t` are `0/0`
forms, undefined in exact arithmetic — NaN in the floating-point original),
and these degenerate values land in the returned record instead of aborting
the run. -/
theorem C9_degenerate (td : TDist) (one_sided : Bool) (alpha : ℚ) (c : ℚ) (n : ℕ)
    (hn : 2 ≤ n) :
    sVar (List.replicate n c) = 0 ∧
    (runEngine td one_sided alpha (List.replicate n c) (List.replicate n c)).se_sq = 0 ∧
    dfDen (List.replicate n c) (List.replicate n c) = 0 ∧
    Real.sqrt
      (((runEngine td one_sided alpha (List.replicate n c) (List.replicate n c)).se_sq : ℚ) : ℝ)
      = 0 ∧
    runEngineChecked td one_sided alpha (List.replicate n c) (List.replicate n c)
      = Except.ok (runEngine td one_sided alpha (List.replicate n c) (List.replicate n c)) := by
  have hn0 : n ≠ 0 := by omega
  have hv : sVar (List.replicate n c) = 0 := sVar_replicate n c hn0
  have hse : (runEngine td one_sided alpha (List.replicate n c) (List.replicate n c)).se_sq
      = 0 := by
    show seSq (List.replicate n c) (List.replicate n c) = 0
    rw [seSq, hv]
    simp
  refine ⟨hv, hse, ?_, ?_, ?_⟩
  · rw [dfDen, hv]
    simp
  · rw [hse]
    simp
  · rw [runEngineChecked, if_neg]
    rw [List.length_replicate]
    omega

/-- C9 witness: the degenerate-run characterisation applied at
`sample1 = sample2 = [5,5,5,5]`. -/
theorem C9_witness :
    (runEngine td0 false (1/20) (List.replicate 4 (5:ℚ)) (List.replicate 4 (5:ℚ))).se_sq
      = 0 :=
  (C9_degenerate td0 false (1/20) 5 4 (by decide)).2.1

/-- Algebraic core of the Welch degrees-of-freedom bounds: for positive
`a = var₂/n₂`, `b = var₁/n₁` and positive `m1 = n₂−1`, `m2 = n₁−1`,
`(a+b)² / (a²/m1 + b²/m2)` lies strictly above `min m1 m2` and is at most
`m1 + m2`. -/
theorem welchBounds (a b m1 m2 : ℚ) (ha : 0 < a) (hb : 0 < b)
    (hm1 : 0 < m1) (hm2 : 0 < m2) :
    min m1 m2 < (a + b) ^ 2 / (a ^ 2 / m1 + b ^ 2 / m2) ∧
      (a + b) ^ 2 / (a ^ 2 / m1 + b ^ 2 / m2) ≤ m1 + m2 := by
  have hE : 0 < a ^ 2 / m1 + b ^ 2 / m2 := by positivity
  have hsplit : a ^ 2 / m1 + b ^ 2 / m2 = (a ^ 2 * m2 + b ^ 2 * m1) / (m1 * m2) := by
    field_simp
  have hmm : 0 < m1 * m2 := mul_pos hm1 hm2
  constructor
  · rw [lt_div_iff hE, hsplit, ← mul_div_assoc, div_lt_iff hmm]
    rcases le_total m1 m2 with h | h
    · rw [min_eq_left h]
      nlinarith [mul_pos ha hb, mul_le_mul_of_nonneg_left h
        (mul_nonneg (sq_nonneg b) hm1.le)]
    · rw [min_eq_right h]
      nlinarith [mul_pos ha hb, mul_le_mul_of_nonneg_left h
        (mul_nonneg (sq_nonneg a) hm2.le)]
  · rw [div_le_iff hE, hsplit, ← mul_div_assoc, le_div_iff hmm]
    nlinarith [sq_nonneg (a * m2 - b * m1)]

/-- C5: for samples of sizes `n1, n2 ≥ 2` with unequal positive variances, the
Welch–Satterthwaite degrees of freedom lie strictly above `min(n1,n2) − 1` and
are at most `n1 + n2 − 2`. -/
theorem C5_df_bounds (td : TDist) (one_sided : Bool) (alpha : ℚ) (s1 s2 : List ℚ)
    (h1 : 2 ≤ s1.length) (h2 : 2 ≤ s2.length)
    (hv1 : 0 < sVar s1) (hv2 : 0 < sVar s2) (hne : sVar s1 ≠ sVar s2) :
    ((min s1.length s2.length : ℕ) : ℚ) - 1
        < (runEngine td one_sided alpha s1 s2).df_w ∧
      (runEngine td one_sided alpha s1 s2).df_w ≤ (s1.length : ℚ) + (s2.length : ℚ) - 2 := by
  show ((min s1.length s2.length : ℕ) : ℚ) - 1 < dfOf s2 s1 ∧
    dfOf s2 s1 ≤ (s1.length : ℚ) + (s2.length : ℚ) - 2
  have hn1 : (2 : ℚ) ≤ (s1.length : ℚ) := by exact_mod_cast h1
  have hn2 : (2 : ℚ) ≤ (s2.length : ℚ) := by exact_mod_cast h2
  have ha : 0 < sVar s2 / (s2.length : ℚ) := div_pos hv2 (by linarith)
  have hb : 0 < sVar s1 / (s1.length : ℚ) := div_pos hv1 (by linarith)
  have hm1 : 0 < (s2.length : ℚ) - 1 := by linarith
  have hm2 : 0 < (s1.length : ℚ) - 1 := by linarith
  have hdf : dfOf s2 s1
      = (sVar s2 / (s2.length : ℚ) + sVar s1 / (s1.length : ℚ)) ^ 2
        / ((sVar s2 / (s2.length : ℚ)) ^ 2 / ((s2.length : ℚ) - 1)
          + (sVar s1 / (s1.length : ℚ)) ^ 2 / ((s1.length : ℚ) - 1)) := rfl
  have hmin : min ((s2.length : ℚ) - 1) ((s1.length : ℚ) - 1)
      = ((min s1.length s2.length : ℕ) : ℚ) - 1 := by
    rw [min_sub_sub_right, min_comm]
    push_cast [Nat.cast_min]
    ring_nf
  obtain ⟨hlo, hhi⟩ := welchBounds (sVar s2 / (s2.length : ℚ)) (sVar s1 / (s1.length : ℚ))
    ((s2.length : ℚ) - 1) ((s1.length : ℚ) - 1) ha hb hm1 hm2
  rw [hdf]
  constructor
  · rw [← hmin]
    exact hlo
  · linarith

/-- C5 witness: the degrees-of-freedom bounds applied at `sample1 = [0,2]`
(variance 2) and `sample2 = [0,4]` (variance 8): `min(2,2) − 1 = 1 < df`. -/
theorem C5_witness :
    ((min ([(0:ℚ), 2].length) ([(0:ℚ), 4].length) : ℕ) : ℚ) - 1
      < (runEngine td0 false (1/20) [(0:ℚ), 2] [0, 4]).df_w :=
  (C5_df_bounds td0 false (1/20) [(0:ℚ), 2] [0, 4] (by decide) (by decide)
    (by norm_num [sVar, mean]) (by norm_num [sVar, mean]) (by norm_num [sVar, mean])).1

/-- The histogram builder always produces 21 edges. -/
theorem binEdges_length (c : List ℚ) : (binEdges c).length = 21 := by
  rw [binEdges, List.length_map, List.length_range]

/-- There is one bin label per bin: 20 of them. -/
theorem binLabels_length (c : List ℚ) : (binLabels (binEdges c)).length = 20 := by
  simp [binLabels, binEdges_length]

/-- C10: both export worksheets receive the identical formatting, derived from
the histogram table alone: the autofilter covers rows 0–20 (header plus the 20
bin rows) and columns 0–2, and exactly three columns are set to width 15 on
each sheet.  Consequently, when the raw data has more than 20 rows — the raw
worksheet's written range spans row 0 (header) through row `n` for `n` data
rows — the raw-data sheet's autofilter stops short of its full written
range. -/
theorem C10_formats (df : DataTable) (c1 c2 : String)
    (h1 : dropna (getCol df c1) ≠ []) (h2 : dropna (getCol df c2) ≠ [])
    (hr : 20 < ((rawDataSheet df c1 c2).2.getD 0 []).length) :
    (exportFormats
        (binLabels (binEdges (dropna (getCol df c1) ++ dropna (getCol df c2)))).length 3).1
      = (exportFormats
        (binLabels (binEdges (dropna (getCol df c1) ++ dropna (getCol df c2)))).length 3).2 ∧
    (exportFormats
        (binLabels (binEdges (dropna (getCol df c1) ++ dropna (getCol df c2)))).length 3).1.autofilter
      = (0, 0, 20, 2) ∧
    (exportFormats
        (binLabels (binEdges (dropna (getCol df c1) ++ dropna (getCol df c2)))).length 3).1.col_widths
      = [(0, 0, 15), (1, 1, 15), (2, 2, 15)] ∧
    (exportFormats
        (binLabels (binEdges (dropna (getCol df c1) ++ dropna (getCol df c2)))).length 3).1.autofilter.2.2.1
      < ((rawDataSheet df c1 c2).2.getD 0 []).length := by
  rw [binLabels_length]
  refine ⟨rfl, rfl, by decide, ?_⟩
  show 20 < ((rawDataSheet df c1 c2).2.getD 0 []).length
  exact hr

/-- C10 witness: the formatting characterisation applied at a concrete table
with 21 raw rows in the first selected column: the autofilter's last row (20)
is strictly below the raw sheet's last written row. -/
theorem C10_witness :
    (exportFormats
        (binLabels (binEdges
          (dropna (getCol [("a", List.replicate 21 (some (1:ℚ))), ("b", [some 2])] "a")
            ++ dropna (getCol [("a", List.replicate 21 (some (1:ℚ))), ("b", [some 2])] "b")))).length
        3).1.autofilter.2.2.1
      < ((rawDataSheet [("a", List.replicate 21 (some (1:ℚ))), ("b", [some 2])] "a" "b").2.getD
          0 []).length :=
  (C10_formats [("a", List.replicate 21 (some (1:ℚ))), ("b", [some 2])] "a" "b"
    (by decide) (by decide) (by decide)).2.2.2

/-! ### Histogram partition lemmas for C6 -/

/-- Folding `min` only ever lowers the accumulator. -/
theorem foldl_min_le_init (xs : List ℚ) (a : ℚ) : xs.foldl min a ≤ a := by
  induction xs generalizing a with
  | nil => exact le_refl a
  | cons x t ih =>
      simp only [List.foldl_cons]
      exact le_trans (ih (min a x)) (min_le_left a x)

/-- The fold of `min` is below every list element. -/
theorem foldl_min_le_mem (xs : List ℚ) (a y : ℚ) (hy : y ∈ xs) : xs.foldl min a ≤ y := by
  induction xs generalizing a with
  | nil => exact absurd hy (List.not_mem_nil y)
  | cons x t ih =>
      simp only [List.foldl_cons]
      rcases List.mem_cons.mp hy with h | h
      · rw [h]
        exact le_trans (foldl_min_le_init t (min a x)) (min_le_right a x)
      · exact ih (min a x) h

/-- Folding `max` only ever raises the accumulator. -/
theorem init_le_foldl_max (xs : List ℚ) (a : ℚ) : a ≤ xs.foldl max a := by
  induction xs generalizing a with
  | nil => exact le_refl a
  | cons x t ih =>
      simp only [List.foldl_cons]
      exact le_trans (le_max_left a x) (ih (max a x))

/-- The fold of `max` is above every list element. -/
theorem mem_le_foldl_max (xs : List ℚ) (a y : ℚ) (hy : y ∈ xs) : y ≤ xs.foldl max a := by
  induction xs generalizing a with
  | nil => exact absurd hy (List.not_mem_nil y)
  | cons x t ih =>
      simp only [List.foldl_cons]
      rcases List.mem_cons.mp hy with h | h
      · rw [h]
        exact le_trans (le_max_right a x) (init_le_foldl_max t (max a x))
      · exact ih (max a x) h

/-- The sample minimum is below every sample value. -/
theorem listMin_le (xs : List ℚ) (y : ℚ) (hy : y ∈ xs) : listMin xs ≤ y := by
  cases xs with
  | nil => exact absurd hy (List.not_mem_nil y)
  | cons x t =>
      rcases List.mem_cons.mp hy with h | h
      · exact h ▸ foldl_min_le_init t x
      · exact foldl_min_le_mem t x y h

/-- The sample maximum is above every sample value. -/
theorem le_listMax (xs : List ℚ) (y : ℚ) (hy : y ∈ xs) : y ≤ listMax xs := by
  cases xs with
  | nil => exact absurd hy (List.not_mem_nil y)
  | cons x t =>
      rcases List.mem_cons.mp hy with h | h
      · exact h ▸ init_le_foldl_max t x
      · exact mem_le_foldl_max t x y h

/-- On a nonempty sample, minimum is below maximum. -/
theorem listMin_le_listMax (xs : List ℚ) (hx : xs ≠ []) : listMin xs ≤ listMax xs := by
  cases xs with
  | nil => exact absurd rfl hx
  | cons x t =>
      exact le_trans (listMin_le (x :: t) x (List.mem_cons_self x t))
        (le_listMax (x :: t) x (List.mem_cons_self x t))

/-- The binning range has a strictly positive extent for nonempty input. -/
theorem outerEdges_lt (c : List ℚ) (hc : c ≠ []) : (outerEdges c).1 < (outerEdges c).2 := by
  rw [outerEdges]
  by_cases h : listMin c = listMax c
  · rw [if_pos h, h]
    linarith
  · rw [if_neg h]
    exact lt_of_le_of_ne (listMin_le_listMax c hc) h

/-- The lower outer edge is at most the combined minimum. -/
theorem outerEdges_le_min (c : List ℚ) : (outerEdges c).1 ≤ listMin c := by
  rw [outerEdges]
  by_cases h : listMin c = listMax c
  · rw [if_pos h]
    norm_num
  · rw [if_neg h]

/-- The combined maximum is at most the upper outer edge. -/
theorem max_le_outerEdges (c : List ℚ) : listMax c ≤ (outerEdges c).2 := by
  rw [outerEdges]
  by_cases h : listMin c = listMax c
  · rw [if_pos h]
    norm_num
  · rw [if_neg h]

/-- The `i`-th bin edge, in closed form. -/
theorem binEdges_getD (c : List ℚ) (i : ℕ) (h : i < 21) :
    (binEdges c).getD i 0
      = (outerEdges c).1 + (i : ℚ) * (((outerEdges c).2 - (outerEdges c).1) / 20) := by
  rw [binEdges, List.getD_eq_getElem?_getD, List.getElem?_map, List.getElem?_range h]
  rfl

/-- Counting over `range n` a predicate that holds exactly at `k < n` gives
`1`. -/
theorem countP_range_eq_one (n k : ℕ) (p : ℕ → Bool) (hk : k < n)
    (h : ∀ i, i < n → (p i = true ↔ i = k)) : (List.range n).countP p = 1 := by
  induction n with
  | zero => omega
  | succ m ih =>
      rw [List.range_succ, List.countP_append]
      by_cases hkm : k = m
      · have h0 : (List.range m).countP p = 0 := by
          rw [List.countP_eq_zero]
          intro a ha
          rw [List.mem_range] at ha
          intro hpa
          have := (h a (by omega)).mp hpa
          omega
        have hpm : p m = true := (h m (by omega)).mpr hkm.symm
        rw [h0, List.countP_cons, List.countP_nil, hpm]
        rfl
      · have hkm' : k < m := by omega
        have hpm : ¬ p m = true := by
          intro hpm
          exact hkm ((h m (by omega)).mp hpm).symm
        rw [ih hkm' (fun i hi => h i (by omega)), List.countP_cons, List.countP_nil]
        simp [hpm]

/-- Sums of pointwise sums of maps split. -/
theorem sum_map_add_nat (l : List ℕ) (f g : ℕ → ℕ) :
    (l.map (fun i => f i + g i)).sum = (l.map f).sum + (l.map g).sum := by
  induction l with
  | nil => rfl
  | cons a t ih =>
      simp only [List.map_cons, List.sum_cons, ih]
      omega

/-- Summing boolean indicators over a list counts the satisfying elements. -/
theorem sum_map_ite_one (l : List ℕ) (q : ℕ → Bool) :
    (l.map (fun i => if q i then 1 else 0)).sum = l.countP q := by
  induction l with
  | nil => rfl
  | cons a t ih =>
      rw [List.map_cons, List.sum_cons, List.countP_cons, ih]
      by_cases h : q a
      · simp [h, Nat.add_comm]
      · simp [h]

/-- Every value inside the outer edges falls into exactly one of the 20 bins:
the numpy binning of the script is a partition of `[first_edge, last_edge]`. -/
theorem inBin_count_one (c : List ℚ) (hc : c ≠ []) (x : ℚ)
    (hx1 : (outerEdges c).1 ≤ x) (hx2 : x ≤ (outerEdges c).2) :
    (List.range 20).countP (fun i => inBin (binEdges c) i x) = 1 := by
  have hlt := outerEdges_lt c hc
  set lo := (outerEdges c).1 with hlo
  set hi := (outerEdges c).2 with hhi
  have hw : 0 < (hi - lo) / 20 := by
    apply div_pos
    · linarith
    · norm_num
  set w := (hi - lo) / 20 with hwdef
  have hhiw : lo + 20 * w = hi := by
    rw [hwdef]
    field_simp
  have conv1 : ∀ q : ℚ, lo + q * w ≤ x ↔ q ≤ (x - lo) / w := by
    intro q
    rw [le_div_iff hw]
    constructor <;> intro <;> linarith
  have conv2 : ∀ q : ℚ, x < lo + q * w ↔ (x - lo) / w < q := by
    intro q
    rw [div_lt_iff hw]
    constructor <;> intro <;> linarith
  set r := (x - lo) / w with hrdef
  have hr0 : 0 ≤ r := by
    rw [hrdef]
    exact div_nonneg (by linarith) hw.le
  have hr20 : r ≤ 20 := by
    rw [hrdef, div_le_iff hw]
    linarith
  have hk0 : (0 : ℤ) ≤ ⌊r⌋ := Int.floor_nonneg.mpr hr0
  refine countP_range_eq_one 20 (min 19 (⌊r⌋).toNat) (fun i => inBin (binEdges c) i x)
    (by omega) ?_
  intro i hi20
  have hedge : ∀ j : ℕ, j < 21 → (binEdges c).getD j 0 = lo + (j : ℚ) * w :=
    fun j hj => binEdges_getD c j hj
  show inBin (binEdges c) i x = true ↔ i = min 19 (⌊r⌋).toNat
  rw [inBin, binEdges_length]
  by_cases h19 : i = 19
  · rw [if_pos (by omega : i = 21 - 2)]
    rw [hedge i (by omega), hedge (i + 1) (by omega), h19]
    rw [decide_eq_true_eq]
    constructor
    · rintro ⟨hle, -⟩
      have h19r : (19 : ℚ) ≤ r := by
        rw [← conv1]
        exact_mod_cast hle
      have : (19 : ℤ) ≤ ⌊r⌋ := Int.le_floor.mpr (by exact_mod_cast h19r)
      omega
    · intro hik
      have h19t : 19 ≤ (⌊r⌋).toNat := by omega
      have h19z : (19 : ℤ) ≤ ⌊r⌋ := by omega
      have h19r : (19 : ℚ) ≤ r := by exact_mod_cast Int.le_floor.mp h19z
      refine ⟨?_, ?_⟩
      · have := (conv1 (19 : ℚ)).mpr h19r
        exact_mod_cast this
      · push_cast
        linarith [hhiw, hx2]
  · rw [if_neg (by omega : ¬ i = 21 - 2)]
    rw [hedge i (by omega), hedge (i + 1) (by omega)]
    rw [decide_eq_true_eq]
    constructor
    · rintro ⟨hle, hltx⟩
      have hir : (i : ℚ) ≤ r := (conv1 (i : ℚ)).mp hle
      have hri : r < (i : ℚ) + 1 := by
        have := (conv2 ((i : ℚ) + 1)).mp (by push_cast at hltx ⊢; linarith)
        linarith
      have hfl : ⌊r⌋ = (i : ℤ) := by
        rw [Int.floor_eq_iff]
        · constructor
          · exact_mod_cast hir
          · push_cast
            exact hri
      omega
    · intro hik
      have hne19 : (⌊r⌋).toNat = i := by omega
      have hfl : ⌊r⌋ = (i : ℤ) := by omega
      have hir : ((i : ℤ) : ℚ) ≤ r := by
        rw [← hfl]
        exact Int.floor_le r
      have hri : r < ((i : ℤ) : ℚ) + 1 := by
        rw [← hfl]
        exact Int.lt_floor_add_one r
      refine ⟨?_, ?_⟩
      · rw [conv1]
        exact_mod_cast hir
      · rw [conv2]
        push_cast at hri ⊢
        linarith

/-- If every sample value falls in exactly one bin, the frequency counts sum
to the sample size. -/
theorem histCounts_sum_aux (E : List ℚ) (s : List ℚ)
    (h : ∀ x ∈ s, (List.range (E.length - 1)).countP (fun i => inBin E i x) = 1) :
    (histCounts E s).sum = s.length := by
  induction s with
  | nil =>
      rw [histCounts]
      simp
  | cons x t ih =>
      rw [histCounts]
      simp only [List.countP_cons]
      rw [sum_map_add_nat]
      have hx := h x (List.mem_cons_self x t)
      rw [sum_map_ite_one, hx]
      have ht := ih (fun y hy => h y (List.mem_cons_of_mem x hy))
      rw [histCounts] at ht
      rw [ht, List.length_cons]

/-- C6: for every pair of non-empty samples, the histogram builder produces
exactly 21 shared bin edges spanning the combined range of both samples, both
frequency arrays have length 20, both samples are counted against the
identical edges, and each frequency array sums to its sample's size — no value
dropped or double-counted. -/
theorem C6_histogram (s1 s2 : List ℚ) (h1 : s1 ≠ []) (h2 : s2 ≠ []) :
    (binEdges (s1 ++ s2)).length = 21 ∧
    (histCounts (binEdges (s1 ++ s2)) s1).length = 20 ∧
    (histCounts (binEdges (s1 ++ s2)) s2).length = 20 ∧
    (histCounts (binEdges (s1 ++ s2)) s1).sum = s1.length ∧
    (histCounts (binEdges (s1 ++ s2)) s2).sum = s2.length ∧
    (binEdges (s1 ++ s2)).getD 0 0 ≤ listMin (s1 ++ s2) ∧
    listMax (s1 ++ s2) ≤ (binEdges (s1 ++ s2)).getD 20 0 := by
  have hc : s1 ++ s2 ≠ [] := by
    intro habs
    exact h1 (List.append_eq_nil.mp habs).1
  have hsum : ∀ s : List ℚ, (∀ x ∈ s, x ∈ s1 ++ s2) →
      (histCounts (binEdges (s1 ++ s2)) s).sum = s.length := by
    intro s hs
    apply histCounts_sum_aux
    intro x hx
    rw [binEdges_length]
    have hmem := hs x hx
    exact inBin_count_one (s1 ++ s2) hc x
      (le_trans (outerEdges_le_min (s1 ++ s2)) (listMin_le (s1 ++ s2) x hmem))
      (le_trans (le_listMax (s1 ++ s2) x hmem) (max_le_outerEdges (s1 ++ s2)))
  have hfirst : (binEdges (s1 ++ s2)).getD 0 0 = (outerEdges (s1 ++ s2)).1 := by
    rw [binEdges_getD (s1 ++ s2) 0 (by omega)]
    simp
  have hlast : (binEdges (s1 ++ s2)).getD 20 0 = (outerEdges (s1 ++ s2)).2 := by
    rw [binEdges_getD (s1 ++ s2) 20 (by omega)]
    push_cast
    field_simp
  refine ⟨binEdges_length (s1 ++ s2), ?_, ?_, ?_, ?_, ?_, ?_⟩
  · rw [histCounts, List.length_map, List.length_range, binEdges_length]
  · rw [histCounts, List.length_map, List.length_range, binEdges_length]
  · exact hsum s1 (fun x hx => List.mem_append_left s2 hx)
  · exact hsum s2 (fun x hx => List.mem_append_right s1 hx)
  · rw [hfirst]
    exact outerEdges_le_min (s1 ++ s2)
  · rw [hlast]
    exact max_le_outerEdges (s1 ++ s2)

/-- C6 witness: the histogram invariants applied at the concrete samples
`[0,1]` and `[2,3]`. -/
theorem C6_witness :
    (histCounts (binEdges ([(0:ℚ), 1] ++ [2, 3])) [(0:ℚ), 1]).sum = [(0:ℚ), 1].length :=
  (C6_histogram [(0:ℚ), 1] [(2:ℚ), 3] (by decide) (by decide)).2.2.2.1

end BLTTest
